import Mathlib

set_option linter.unusedVariables false

/-!
Verification of the chunked sparsity pattern component
(`deal.II/lac/source/chunk_sparsity_pattern.cc`).

The coarse `SparsityPattern` collaborator and the two compressed input
patterns are not part of the translated source files; they are modelled from
the specification as set-valued structures.  The dense `FullMatrix` input is
translated from `src/deal.II/lac/include/lac/full_matrix.h` (its declaration
and the inline `m()`, `n()`, `el`, `operator()`).
Machine `unsigned int` arithmetic is modelled on
`Nat` with explicit reduction modulo `2 ^ 32` at the operations that can wrap.
Stream output is modelled as a list of characters; stream input as a parser
over a list of characters that mirrors `std::istream` formatted extraction
(skip whitespace, then read one token).
-/

/-- The modulus of the C++ `unsigned int` type (32 bits). -/
def U32 : Nat := 4294967296

/-- Wrapping 32-bit addition. -/
def add32 (a b : Nat) : Nat := (a + b) % U32

/-- Wrapping 32-bit multiplication. -/
def mul32 (a b : Nat) : Nat := (a * b) % U32

/-- Wrapping 32-bit subtraction (both arguments below `U32`). -/
def sub32 (a b : Nat) : Nat := (a + U32 - b) % U32

/-- Whitespace test used by `std::istream` formatted extraction. -/
def isWsChar (c : Char) : Bool :=
  c = ' ' || c = '\t' || c = '\n' || c = '\r'

/-- Drop the leading whitespace of a character stream. -/
def skipWs : List Char → List Char
  | [] => []
  | c :: cs => if isWsChar c then skipWs cs else c :: cs

/-- The decimal digit character of a value below ten. -/
def digitChar (d : Nat) : Char :=
  match d with
  | 0 => '0' | 1 => '1' | 2 => '2' | 3 => '3' | 4 => '4'
  | 5 => '5' | 6 => '6' | 7 => '7' | 8 => '8' | _ => '9'

/-- Fuelled most-significant-first decimal printing. -/
def natDecimalAux : Nat → Nat → List Char
  | 0, _ => []
  | fuel + 1, n =>
    if n < 10 then [digitChar n]
    else natDecimalAux fuel (n / 10) ++ [digitChar (n % 10)]

/-- The decimal digits that `operator<<` writes for an unsigned value. -/
def natDecimal (n : Nat) : List Char := natDecimalAux (n + 1) n

/-- Consume a maximal run of decimal digits, accumulating their value. -/
def readDigits : Nat → List Char → Nat × List Char
  | acc, [] => (acc, [])
  | acc, c :: cs =>
    if c.isDigit then readDigits (acc * 10 + (c.toNat - 48)) cs else (acc, c :: cs)

/-- Formatted extraction of an unsigned value: skip whitespace, then
digits; fail if the first non-blank character is not a digit. -/
def parseNat (l : List Char) : Option (Nat × List Char) :=
  match skipWs l with
  | [] => none
  | c :: cs => if c.isDigit then some (readDigits 0 (c :: cs)) else none

/-- Formatted extraction of one character: skip whitespace, take one. -/
def parseOneChar (l : List Char) : Option (Char × List Char) :=
  match skipWs l with
  | [] => none
  | c :: cs => some (c, cs)

/-- Formatted extraction of one character followed by the delimiter check
the source performs with `AssertThrow`. -/
def expectChar (c : Char) (l : List Char) : Option (List Char) :=
  match parseOneChar l with
  | none => none
  | some (c2, rest) => if c2 = c then some rest else none

/-- True when the stream is empty or starts with a non-digit, so that
`readDigits` stops there. -/
def headNotDigit : List Char → Bool
  | [] => true
  | c :: _ => !c.isDigit

theorem digitChar_isDigit (d : Nat) (h : d < 10) : (digitChar d).isDigit = true := by
  interval_cases d <;> decide

theorem digitChar_toNat (d : Nat) (h : d < 10) : (digitChar d).toNat - 48 = d := by
  interval_cases d <;> decide

theorem digitChar_not_ws (d : Nat) (h : d < 10) : isWsChar (digitChar d) = false := by
  interval_cases d <;> decide

theorem natDecimalAux_succ (fuel n : Nat) :
    natDecimalAux (fuel + 1) n
      = if n < 10 then [digitChar n]
        else natDecimalAux fuel (n / 10) ++ [digitChar (n % 10)] := rfl

theorem readDigits_stop (acc : Nat) (rest : List Char) (h : headNotDigit rest = true) :
    readDigits acc rest = (acc, rest) := by
  cases rest with
  | nil => rfl
  | cons c cs =>
    simp only [headNotDigit, Bool.not_eq_true'] at h
    simp [readDigits, h]

theorem readDigits_cons_digit (acc : Nat) (c : Char) (l : List Char) (hd : c.isDigit = true) :
    readDigits acc (c :: l) = readDigits (acc * 10 + (c.toNat - 48)) l := by
  simp [readDigits, hd]

theorem readDigits_natDecimalAux (fuel : Nat) :
    ∀ n acc rest, n < 10 ^ fuel →
      readDigits acc (natDecimalAux fuel n ++ rest)
        = readDigits (acc * 10 ^ (natDecimalAux fuel n).length + n) rest := by
  induction fuel with
  | zero =>
    intro n acc rest h
    interval_cases n
    simp [natDecimalAux]
  | succ fuel ih =>
    intro n acc rest h
    by_cases h10 : n < 10
    · rw [natDecimalAux_succ fuel n, if_pos h10]
      simp only [List.singleton_append, List.length_singleton, pow_one]
      rw [readDigits_cons_digit acc _ rest (digitChar_isDigit n h10), digitChar_toNat n h10]
    · have hdiv : n / 10 < 10 ^ fuel := by
        rw [Nat.div_lt_iff_lt_mul (by norm_num)]
        calc n < 10 ^ (fuel + 1) := h
          _ = 10 ^ fuel * 10 := by rw [pow_succ]
      have hm : n % 10 < 10 := Nat.mod_lt _ (by norm_num)
      rw [natDecimalAux_succ fuel n, if_neg h10]
      rw [List.append_assoc, List.singleton_append]
      rw [ih (n / 10) acc _ hdiv]
      rw [readDigits_cons_digit _ _ rest (digitChar_isDigit _ hm), digitChar_toNat _ hm]
      have harith : (acc * 10 ^ (natDecimalAux fuel (n / 10)).length + n / 10) * 10 + n % 10
          = acc * 10 ^ (natDecimalAux fuel (n / 10) ++ [digitChar (n % 10)]).length + n := by
        have hdm : 10 * (n / 10) + n % 10 = n := Nat.div_add_mod n 10
        have hlen : (natDecimalAux fuel (n / 10) ++ [digitChar (n % 10)]).length
            = (natDecimalAux fuel (n / 10)).length + 1 := by simp
        rw [hlen, pow_succ]
        calc (acc * 10 ^ (natDecimalAux fuel (n / 10)).length + n / 10) * 10 + n % 10
            = acc * (10 ^ (natDecimalAux fuel (n / 10)).length * 10)
              + (10 * (n / 10) + n % 10) := by ring
          _ = acc * (10 ^ (natDecimalAux fuel (n / 10)).length * 10) + n := by rw [hdm]
      rw [harith]

theorem natDecimalAux_head : ∀ fuel n, n < 10 ^ (fuel + 1) →
    ∃ c cs, natDecimalAux (fuel + 1) n = c :: cs ∧ c.isDigit = true ∧ isWsChar c = false := by
  intro fuel
  induction fuel with
  | zero =>
    intro n h
    have h10 : n < 10 := by simpa using h
    exact ⟨digitChar n, [], by rw [natDecimalAux_succ, if_pos h10],
      digitChar_isDigit n h10, digitChar_not_ws n h10⟩
  | succ fuel ih =>
    intro n h
    by_cases h10 : n < 10
    · exact ⟨digitChar n, [], by rw [natDecimalAux_succ, if_pos h10],
        digitChar_isDigit n h10, digitChar_not_ws n h10⟩
    · have hdiv : n / 10 < 10 ^ (fuel + 1) := by
        rw [Nat.div_lt_iff_lt_mul (by norm_num)]
        calc n < 10 ^ (fuel + 1 + 1) := h
          _ = 10 ^ (fuel + 1) * 10 := by rw [pow_succ]
      obtain ⟨c, cs, heq, hd, hw⟩ := ih (n / 10) hdiv
      refine ⟨c, cs ++ [digitChar (n % 10)], ?_, hd, hw⟩
      rw [natDecimalAux_succ (fuel + 1) n, if_neg h10, heq]
      simp

theorem lt_ten_pow_succ (n : Nat) : n < 10 ^ (n + 1) := by
  have h1 : n < 2 ^ n := Nat.lt_two_pow n
  have h2 : 2 ^ n ≤ 10 ^ n := Nat.pow_le_pow_left (by norm_num) n
  have h3 : (10 : Nat) ^ n ≤ 10 ^ (n + 1) := Nat.pow_le_pow_right (by norm_num) (Nat.le_succ n)
  omega

theorem skipWs_cons_not (c : Char) (l : List Char) (h : isWsChar c = false) :
    skipWs (c :: l) = c :: l := by
  simp [skipWs, h]

theorem parseNat_cons_digit (c : Char) (l : List Char) (hw : isWsChar c = false)
    (hd : c.isDigit = true) :
    parseNat (c :: l) = some (readDigits 0 (c :: l)) := by
  simp [parseNat, skipWs_cons_not c l hw, hd]

theorem parseNat_natDecimal (n : Nat) (rest : List Char) (h : headNotDigit rest = true) :
    parseNat (natDecimal n ++ rest) = some (n, rest) := by
  have hlt : n < 10 ^ (n + 1) := lt_ten_pow_succ n
  obtain ⟨c, cs, heq, hd, hw⟩ := natDecimalAux_head n n hlt
  have hread := readDigits_natDecimalAux (n + 1) n 0 rest hlt
  unfold natDecimal
  rw [heq] at hread ⊢
  simp only [List.cons_append] at hread ⊢
  rw [parseNat_cons_digit _ _ hw hd, hread, readDigits_stop _ _ h]
  simp

theorem parseNat_ws_cons (c : Char) (l : List Char) (h : isWsChar c = true) :
    parseNat (c :: l) = parseNat l := by
  simp [parseNat, skipWs, h]

theorem parseOneChar_cons (c : Char) (cs : List Char) (h : isWsChar c = false) :
    parseOneChar (c :: cs) = some (c, cs) := by
  simp [parseOneChar, skipWs, h]

theorem parseOneChar_ws_cons (c : Char) (l : List Char) (h : isWsChar c = true) :
    parseOneChar (c :: l) = parseOneChar l := by
  simp [parseOneChar, skipWs, h]

theorem expectChar_cons (c : Char) (cs : List Char) (h : isWsChar c = false) :
    expectChar c (c :: cs) = some cs := by
  simp [expectChar, parseOneChar_cons c cs h]

/-- Modelled from the spec: the coarse single-granularity sparsity structure
that `ChunkSparsityPattern` wraps is not part of the translated source
(`SparsityPattern` lives elsewhere in the library).  Per the spec it "stores,
per chunk-row, the set of chunk-columns that have at least one logical
nonzero", so it is modelled as chunk dimensions plus a finite set of
(chunk-row, chunk-column) pairs. -/
structure SparsityPattern where
  sp_rows : Nat
  sp_cols : Nat
  entries : Finset (Nat × Nat)
deriving DecidableEq

/-- Modelled from the spec: coarse `reinit(chunk_rows, chunk_cols,
per_chunk_row_capacity[], optimize_diag)` sizes the structure and discards
previous contents; the capacity argument only pre-allocates storage and the
`optimize_diag` flag only pre-allocates diagonal slots, neither affecting
the recorded entry set. -/
def SparsityPattern.reinit (m n : Nat) (row_lengths : List Nat)
    (optimize_diag : Bool) : SparsityPattern :=
  ⟨m, n, ∅⟩

/-- Modelled from the spec: coarse `add(chunk_row, chunk_col)` inserts the
chunk into the recorded set (idempotent). -/
def SparsityPattern.add (sp : SparsityPattern) (r c : Nat) : SparsityPattern :=
  { sp with entries := insert (r, c) sp.entries }

/-- Modelled from the spec: coarse `exists(chunk_row, chunk_col)` reports
whether the chunk is recorded. -/
def SparsityPattern.exists_entry (sp : SparsityPattern) (r c : Nat) : Bool :=
  decide ((r, c) ∈ sp.entries)

/-- Modelled from the spec: coarse `compress()` finalizes (sorts/dedupes)
the storage without changing the recorded set; on the set model it is the
identity. -/
def SparsityPattern.compress (sp : SparsityPattern) : SparsityPattern := sp

/-- Modelled from the spec glossary: bandwidth is the maximum absolute
row−column index distance among recorded entries. -/
def SparsityPattern.bandwidth (sp : SparsityPattern) : Nat :=
  sp.entries.sup fun p => max (p.1 - p.2) (p.2 - p.1)

/-- The recorded chunks listed as a canonical (sorted) list of codes of the
pairing function, used for the serialized payload. -/
def SparsityPattern.entryCodes (sp : SparsityPattern) : List Nat :=
  (sp.entries.image fun p => Nat.pair p.1 p.2).sort (· ≤ ·)

/-- One value of the coarse payload: decimal digits plus a terminator. -/
def encodeNatSemi (v : Nat) : List Char := natDecimal v ++ [';']

/-- Modelled from the spec: the coarse structure's own block-write payload is
opaque to the chunked component; it must merely be readable back by the
coarse `block_read`.  It is modelled as the dimensions, the entry count and
the entry codes, each as terminated decimal numbers. -/
def SparsityPattern.block_write (sp : SparsityPattern) : List Char :=
  encodeNatSemi sp.sp_rows ++ encodeNatSemi sp.sp_cols ++
    encodeNatSemi sp.entryCodes.length ++ (sp.entryCodes.map encodeNatSemi).flatten

/-- Read back one terminated decimal value of the coarse payload. -/
def parseNatSemi (l : List Char) : Option (Nat × List Char) :=
  match parseNat l with
  | some (v, rest) =>
    match rest with
    | c :: rest2 => if c = ';' then some (v, rest2) else none
    | [] => none
  | none => none

/-- Read back a fixed number of terminated decimal values. -/
def parseNatListN : Nat → List Char → Option (List Nat × List Char)
  | 0, l => some ([], l)
  | k + 1, l =>
    match parseNatSemi l with
    | some (v, l1) =>
      match parseNatListN k l1 with
      | some (vs, l2) => some (v :: vs, l2)
      | none => none
    | none => none

/-- Modelled from the spec: coarse `block_read` is the exact inverse of the
coarse `block_write` payload. -/
def SparsityPattern.block_read (l : List Char) : Option (SparsityPattern × List Char) :=
  match parseNatSemi l with
  | some (m, l1) =>
    match parseNatSemi l1 with
    | some (n, l2) =>
      match parseNatSemi l2 with
      | some (k, l3) =>
        match parseNatListN k l3 with
        | some (vs, l4) => some (⟨m, n, (vs.map Nat.unpair).toFinset⟩, l4)
        | none => none
      | none => none
    | none => none
  | none => none

theorem parseNatSemi_encode (v : Nat) (rest : List Char) :
    parseNatSemi (encodeNatSemi v ++ rest) = some (v, rest) := by
  have h : headNotDigit (';' :: rest) = true := rfl
  unfold parseNatSemi encodeNatSemi
  rw [List.append_assoc, List.singleton_append, parseNat_natDecimal v (';' :: rest) h]
  simp

theorem parseNatListN_encode (vs : List Nat) (rest : List Char) :
    parseNatListN vs.length ((vs.map encodeNatSemi).flatten ++ rest) = some (vs, rest) := by
  induction vs generalizing rest with
  | nil => simp [parseNatListN]
  | cons v vs ih =>
    simp only [List.map_cons, List.flatten_cons, List.length_cons, List.append_assoc]
    unfold parseNatListN
    simp [parseNatSemi_encode, ih]

theorem entryCodes_toFinset (sp : SparsityPattern) :
    (sp.entryCodes.map Nat.unpair).toFinset = sp.entries := by
  ext p
  simp only [List.mem_toFinset, List.mem_map, SparsityPattern.entryCodes]
  constructor
  · rintro ⟨v, hv, rfl⟩
    rw [Finset.mem_sort] at hv
    obtain ⟨q, hq, rfl⟩ := Finset.mem_image.mp hv
    simpa [Nat.unpair_pair] using hq
  · intro hp
    refine ⟨Nat.pair p.1 p.2, ?_, by simp [Nat.unpair_pair]⟩
    rw [Finset.mem_sort]
    exact Finset.mem_image_of_mem _ hp

theorem sparsity_block_roundtrip (sp : SparsityPattern) (rest : List Char) :
    SparsityPattern.block_read (sp.block_write ++ rest) = some (sp, rest) := by
  unfold SparsityPattern.block_write SparsityPattern.block_read
  simp only [List.append_assoc, parseNatSemi_encode, parseNatListN_encode, entryCodes_toFinset]

/-- The error conditions raised by the translated source: the `Assert` /
`AssertThrow` precondition violations, plus the undefined unsigned division
by zero that `reinit` performs when `chunk_size = 0`. -/
inductive ChunkError where
  | invalidNumber
  | invalidConstructorCall
  | invalidIndex
  | indexRange
  | notQuadratic
  | streamFailure
  | divisionByZero
deriving DecidableEq

/-- Discriminates a successful `Except` result. -/
def exceptIsOk {ε α : Type} : Except ε α → Bool
  | Except.ok _ => true
  | Except.error _ => false

/-- The chunked sparsity pattern: logical dimensions, chunk size, and the
coarse structure (member `sparsity_pattern` in the source). -/
structure ChunkSparsityPattern where
  rows : Nat
  cols : Nat
  chunk_size : Nat
  sparsity_pattern : SparsityPattern
deriving DecidableEq

/-- The loop of `ChunkSparsityPattern::reinit` (source lines 153-157): for
each logical row `i` below the bound, raise the entry at chunk row
`i / chunk_size` to at least `row_lengths[i]`. -/
def chunkRowLengthsAux (chunk_size : Nat) (row_lengths : List Nat) : Nat → List Nat → List Nat
  | 0, acc => acc
  | i + 1, acc =>
    let acc2 := chunkRowLengthsAux chunk_size row_lengths i acc
    acc2.set (i / chunk_size) (max (acc2.getD (i / chunk_size) 0) (row_lengths.getD i 0))

/-- The vector `chunk_row_lengths` computed by `ChunkSparsityPattern::reinit`:
initialized to `m_chunks` zeros, then updated by the row loop. -/
def chunk_row_lengths (m chunk_size m_chunks : Nat) (row_lengths : List Nat) : List Nat :=
  chunkRowLengthsAux chunk_size row_lengths m (List.replicate m_chunks 0)

/-- `ChunkSparsityPattern::reinit` (vector overload, source lines 122-163).
The `Assert` on the row-length vector size is the `invalidNumber` error; the
unsigned division `(m + chunk_size) / chunk_size` with `chunk_size = 0` is
undefined in C++ and is modelled as the `divisionByZero` error. -/
def ChunkSparsityPattern.reinit (m n : Nat) (row_lengths : List Nat) (chunk_size : Nat)
    (optimize_diag : Bool) : Except ChunkError ChunkSparsityPattern :=
  if row_lengths.length = m then
    if chunk_size = 0 then Except.error ChunkError.divisionByZero
    else
      Except.ok ⟨m, n, chunk_size,
        SparsityPattern.reinit (add32 m chunk_size / chunk_size)
          (add32 n chunk_size / chunk_size)
          (chunk_row_lengths m chunk_size (add32 m chunk_size / chunk_size) row_lengths)
          optimize_diag⟩
  else Except.error ChunkError.invalidNumber

/-- `ChunkSparsityPattern::reinit` (uniform `max_per_row` overload, source
lines 107-118). -/
def ChunkSparsityPattern.reinit_uniform (m n max_per_row chunk_size : Nat)
    (optimize_diag : Bool) : Except ChunkError ChunkSparsityPattern :=
  ChunkSparsityPattern.reinit m n (List.replicate m max_per_row) chunk_size optimize_diag

/-- The default constructor (source lines 23-26): `reinit(0, 0, 0, 0)`. -/
def ChunkSparsityPattern.default_ctor : Except ChunkError ChunkSparsityPattern :=
  ChunkSparsityPattern.reinit_uniform 0 0 0 0 true

/-- The copy constructor (source lines 30-40): asserts the source pattern is
in the unsized state, then calls `reinit(0, 0, 0, 0, false)`. -/
def ChunkSparsityPattern.copy_ctor (s : ChunkSparsityPattern) :
    Except ChunkError ChunkSparsityPattern :=
  if s.rows = 0 then
    if s.cols = 0 then ChunkSparsityPattern.reinit_uniform 0 0 0 0 false
    else Except.error ChunkError.invalidConstructorCall
  else Except.error ChunkError.invalidConstructorCall

/-- `ChunkSparsityPattern::operator=` (source lines 92-103): asserts the
source pattern is unsized, then copies only the `sparsity_pattern` member. -/
def ChunkSparsityPattern.copy_assign (t s : ChunkSparsityPattern) :
    Except ChunkError ChunkSparsityPattern :=
  if s.rows = 0 then
    if s.cols = 0 then Except.ok { t with sparsity_pattern := s.sparsity_pattern }
    else Except.error ChunkError.invalidConstructorCall
  else Except.error ChunkError.invalidConstructorCall

/-- `ChunkSparsityPattern::compress` (source lines 167-171). -/
def ChunkSparsityPattern.compress (s : ChunkSparsityPattern) : ChunkSparsityPattern :=
  { s with sparsity_pattern := s.sparsity_pattern.compress }

/-- `ChunkSparsityPattern::add` (source lines 298-306): bounds assertions,
then insertion of chunk `(i / chunk_size, j / chunk_size)`. -/
def ChunkSparsityPattern.add (s : ChunkSparsityPattern) (i j : Nat) :
    Except ChunkError ChunkSparsityPattern :=
  if i < s.rows then
    if j < s.cols then
      Except.ok { s with sparsity_pattern :=
        s.sparsity_pattern.add (i / s.chunk_size) (j / s.chunk_size) }
    else Except.error ChunkError.invalidIndex
  else Except.error ChunkError.invalidIndex

/-- `ChunkSparsityPattern::exists` (source lines 309-318): bounds assertions,
then the coarse existence query for the covering chunk. -/
def ChunkSparsityPattern.exists_query (s : ChunkSparsityPattern) (i j : Nat) :
    Except ChunkError Bool :=
  if i < s.rows then
    if j < s.cols then
      Except.ok (s.sparsity_pattern.exists_entry (i / s.chunk_size) (j / s.chunk_size))
    else Except.error ChunkError.indexRange
  else Except.error ChunkError.indexRange

/-- `ChunkSparsityPattern::n_rows` accessor (declared in the header, which is
not part of the translated source; it returns the `rows` member). -/
def ChunkSparsityPattern.n_rows (s : ChunkSparsityPattern) : Nat := s.rows

/-- `ChunkSparsityPattern::n_cols` accessor (declared in the header, which is
not part of the translated source; it returns the `cols` member). -/
def ChunkSparsityPattern.n_cols (s : ChunkSparsityPattern) : Nat := s.cols

/-- `ChunkSparsityPattern::bandwidth` (source lines 353-368), with the
unsigned arithmetic reduced modulo `2 ^ 32`. -/
def ChunkSparsityPattern.bandwidth (s : ChunkSparsityPattern) : Nat :=
  min (add32 (mul32 s.sparsity_pattern.bandwidth s.chunk_size) (sub32 s.chunk_size 1))
    (max s.n_rows s.n_cols)

/-- One stream insertion of `ChunkSparsityPattern::block_write`. -/
def streamPut (out piece : List Char) : List Char := out ++ piece

/-- `ChunkSparsityPattern::block_write` (source lines 371-387): the
successive stream insertions `'[' << rows << ' ' << cols << ' ' << "]["`,
the coarse payload, and `']'`. -/
def ChunkSparsityPattern.block_write (s : ChunkSparsityPattern) : List Char :=
  let out : List Char := []
  let out := streamPut out ['[']
  let out := streamPut out (natDecimal s.rows)
  let out := streamPut out [' ']
  let out := streamPut out (natDecimal s.cols)
  let out := streamPut out [' ']
  let out := streamPut out [']', '[']
  let out := streamPut out s.sparsity_pattern.block_write
  let out := streamPut out [']']
  out

/-- `ChunkSparsityPattern::block_read` (source lines 391-415): formatted
extraction of `'['`, `rows`, `cols`, `']'`, `'['`, the coarse payload and
`']'`, with every failed delimiter check (`AssertThrow`) yielding `none`.
The `chunk_size` member is neither read nor written. -/
def ChunkSparsityPattern.block_read (s : ChunkSparsityPattern) (input : List Char) :
    Option (ChunkSparsityPattern × List Char) :=
  match expectChar '[' input with
  | none => none
  | some l1 =>
    match parseNat l1 with
    | none => none
    | some (m, l2) =>
      match parseNat l2 with
      | none => none
      | some (n, l3) =>
        match expectChar ']' l3 with
        | none => none
        | some l4 =>
          match expectChar '[' l4 with
          | none => none
          | some l5 =>
            match SparsityPattern.block_read l5 with
            | none => none
            | some (sp, l6) =>
              match expectChar ']' l6 with
              | none => none
              | some l7 => some ({ s with rows := m, cols := n, sparsity_pattern := sp }, l7)

/-- Modelled from the spec: a compressed input pattern with ordered row
access, consumed only through `n_rows()`, `n_cols()`, `row_length(row)` and
`column_number(row, j)`.  Each row is represented by the list of its column
indices in iteration order. -/
structure CompressedSparsityPattern where
  csp_rows : Nat
  csp_cols : Nat
  row_entries : Nat → List Nat

/-- Modelled from the spec: `CompressedSparsityPattern::row_length`. -/
def CompressedSparsityPattern.row_length (csp : CompressedSparsityPattern) (row : Nat) : Nat :=
  (csp.row_entries row).length

/-- Modelled from the spec: `CompressedSparsityPattern::column_number`. -/
def CompressedSparsityPattern.column_number (csp : CompressedSparsityPattern)
    (row j : Nat) : Nat :=
  (csp.row_entries row).getD j 0

/-- Modelled from the spec: a compressed input pattern with set-like forward
row iterators (`row_begin` / `row_end`), consumed only through `n_rows()`,
`n_cols()` and iteration over each row's column indices. -/
structure CompressedSetSparsityPattern where
  cssp_rows : Nat
  cssp_cols : Nat
  row_list : Nat → List Nat

/-- `FullMatrix<number>` (`src/deal.II/lac/include/lac/full_matrix.h`): a
dense matrix of `number`s with `dim_image` rows and `dim_range` columns,
stored row-major in the flat array `val`.  The C++ array member is modelled
as a total function on flat indices. -/
structure FullMatrix (α : Type) where
  val : Nat → α
  dim_range : Nat
  dim_image : Nat

/-- `FullMatrix<number>::m()` (inline in the header): the number of rows,
`dim_image`. -/
def FullMatrix.m {α : Type} (matrix : FullMatrix α) : Nat := matrix.dim_image

/-- `FullMatrix<number>::n()` (inline in the header): the number of columns,
`dim_range`. -/
def FullMatrix.n {α : Type} (matrix : FullMatrix α) : Nat := matrix.dim_range

/-- `FullMatrix<number>::el(i, j)` (inline in the header): the unchecked
access `val[i*dim_range+j]`, its unsigned index arithmetic reduced modulo
`2 ^ 32`. -/
def FullMatrix.el {α : Type} (matrix : FullMatrix α) (i j : Nat) : α :=
  matrix.val (add32 (mul32 i matrix.dim_range) j)

/-- `FullMatrix<number>::operator()(i, j) const` (inline in the header):
`Assert`s `i < dim_image` and `j < dim_range` — modelled like the other
precondition violations, as the `invalidIndex` error — then `el(i, j)`. -/
def FullMatrix.checked_el {α : Type} (matrix : FullMatrix α) (i j : Nat) :
    Except ChunkError α :=
  if i < matrix.dim_image then
    if j < matrix.dim_range then Except.ok (matrix.el i j)
    else Except.error ChunkError.invalidIndex
  else Except.error ChunkError.invalidIndex

/-- `ChunkSparsityPattern::copy_from(CompressedSparsityPattern, ...)`
(source lines 175-199): count entries per row, `reinit`, insert every
`(row, column_number(row, j))`, `compress`. -/
def ChunkSparsityPattern.copy_from_csp (csp : CompressedSparsityPattern)
    (chunk_size : Nat) (optimize_diag : Bool) :
    Except ChunkError ChunkSparsityPattern := do
  let s ← ChunkSparsityPattern.reinit csp.csp_rows csp.csp_cols
    ((List.range csp.csp_rows).map fun row =>
      (List.range (csp.row_length row)).foldl (fun c _ => c + 1) 0)
    chunk_size optimize_diag
  let s ← (List.range csp.csp_rows).foldlM (fun s2 row =>
      (List.range (csp.row_length row)).foldlM
        (fun s3 j => s3.add row (csp.column_number row j)) s2) s
  pure s.compress

/-- `ChunkSparsityPattern::copy_from(CompressedSetSparsityPattern, ...)`
(source lines 203-235): count entries per row by iterator, `reinit`, insert
every `(row, *col_num)`, `compress`. -/
def ChunkSparsityPattern.copy_from_set (csp : CompressedSetSparsityPattern)
    (chunk_size : Nat) (optimize_diag : Bool) :
    Except ChunkError ChunkSparsityPattern := do
  let s ← ChunkSparsityPattern.reinit csp.cssp_rows csp.cssp_cols
    ((List.range csp.cssp_rows).map fun row =>
      (csp.row_list row).foldl (fun c _ => c + 1) 0)
    chunk_size optimize_diag
  let s ← (List.range csp.cssp_rows).foldlM (fun s2 row =>
      (csp.row_list row).foldlM (fun s3 col => s3.add row col) s2) s
  pure s.compress

/-- `ChunkSparsityPattern::copy_from(FullMatrix<number>, ...)` (source lines
240-266): count nonzero entries per row into a vector of `matrix.m()`
zeros, `reinit`, insert every `(row, col)` whose element is nonzero,
`compress`.  Both passes test `matrix(row, col) != 0` through the
bounds-checked `operator()`. -/
def ChunkSparsityPattern.copy_from_full {α : Type} [Zero α] [DecidableEq α]
    (matrix : FullMatrix α) (chunk_size : Nat) (optimize_diag : Bool) :
    Except ChunkError ChunkSparsityPattern := do
  let entries_per_row ← (List.range matrix.m).foldlM (fun epr row =>
      (List.range matrix.n).foldlM (fun epr2 col =>
        matrix.checked_el row col >>= fun v =>
          pure (if v ≠ 0 then epr2.set row (epr2.getD row 0 + 1) else epr2)) epr)
    (List.replicate matrix.m 0)
  let s ← ChunkSparsityPattern.reinit matrix.m matrix.n entries_per_row
    chunk_size optimize_diag
  let s ← (List.range matrix.m).foldlM (fun s2 row =>
      (List.range matrix.n).foldlM (fun s3 col =>
        matrix.checked_el row col >>= fun v =>
          if v ≠ 0 then s3.add row col else pure s3) s2) s
  pure s.compress

/-- The building-block construction path the spec describes for the fourth
overload: `reinit` with an explicit per-row entry-count array, a
caller-driven insertion loop of `add`, then `compress`. -/
def ChunkSparsityPattern.build_manual (m n : Nat) (row_lengths : List Nat)
    (inserts : List (Nat × Nat)) (chunk_size : Nat) (optimize_diag : Bool) :
    Except ChunkError ChunkSparsityPattern := do
  let s ← ChunkSparsityPattern.reinit m n row_lengths chunk_size optimize_diag
  let s ← inserts.foldlM (fun s2 p => s2.add p.1 p.2) s
  pure s.compress

theorem getD_set_self (l : List Nat) : ∀ i v, i < l.length → (l.set i v).getD i 0 = v := by
  induction l with
  | nil => intro i v h; simp at h
  | cons a l ih =>
    intro i v h
    cases i with
    | zero => rfl
    | succ i => exact ih i v (Nat.lt_of_succ_lt_succ h)

theorem getD_set_other (l : List Nat) : ∀ i j v, i ≠ j → (l.set i v).getD j 0 = l.getD j 0 := by
  induction l with
  | nil => intro i j v h; rfl
  | cons a l ih =>
    intro i j v h
    cases i with
    | zero =>
      cases j with
      | zero => exact absurd rfl h
      | succ j => rfl
    | succ i =>
      cases j with
      | zero => rfl
      | succ j => exact ih i j v (fun he => h (by rw [he]))

theorem getD_replicate_zero : ∀ n k, (List.replicate n (0 : Nat)).getD k 0 = 0 := by
  intro n
  induction n with
  | zero => intro k; rfl
  | succ n ih =>
    intro k
    cases k with
    | zero => rfl
    | succ k => exact ih k

theorem chunkRowLengthsAux_succ (c : Nat) (rl : List Nat) (m : Nat) (acc : List Nat) :
    chunkRowLengthsAux c rl (m + 1) acc
      = (chunkRowLengthsAux c rl m acc).set (m / c)
          (max ((chunkRowLengthsAux c rl m acc).getD (m / c) 0) (rl.getD m 0)) := rfl

theorem chunkRowLengthsAux_length (c : Nat) (rl : List Nat) :
    ∀ m acc, (chunkRowLengthsAux c rl m acc).length = acc.length := by
  intro m
  induction m with
  | zero => intro acc; rfl
  | succ m ih =>
    intro acc
    rw [chunkRowLengthsAux_succ, List.length_set, ih]

theorem chunkRowLengthsAux_getD (c : Nat) (rl : List Nat) :
    ∀ m acc k, k < acc.length → (∀ i, i < m → i / c < acc.length) →
      (chunkRowLengthsAux c rl m acc).getD k 0
        = max (acc.getD k 0)
            (((Finset.range m).filter fun i => i / c = k).sup fun i => rl.getD i 0) := by
  intro m
  induction m with
  | zero =>
    intro acc k hk hb
    simp [chunkRowLengthsAux]
  | succ m ih =>
    intro acc k hk hb
    have hb2 : ∀ i, i < m → i / c < acc.length := fun i hi => hb i (Nat.lt_succ_of_lt hi)
    have hmem : m / c < (chunkRowLengthsAux c rl m acc).length := by
      rw [chunkRowLengthsAux_length]
      exact hb m (Nat.lt_succ_self m)
    rw [chunkRowLengthsAux_succ]
    rw [Finset.range_succ, Finset.filter_insert]
    by_cases hkc : m / c = k
    · subst hkc
      rw [getD_set_self _ _ _ hmem, ih acc _ hk hb2, if_pos rfl, Finset.sup_insert]
      rw [sup_eq_max]
      omega
    · rw [getD_set_other _ _ _ _ hkc, ih acc k hk hb2, if_neg hkc]

theorem add_ok (s : ChunkSparsityPattern) (i j : Nat) (hi : i < s.rows) (hj : j < s.cols) :
    s.add i j = Except.ok { s with sparsity_pattern := { s.sparsity_pattern with
      entries := insert (i / s.chunk_size, j / s.chunk_size) s.sparsity_pattern.entries } } := by
  simp [ChunkSparsityPattern.add, SparsityPattern.add, hi, hj]

theorem foldlM_add_pairs (L : List (Nat × Nat)) :
    ∀ s : ChunkSparsityPattern, (∀ p ∈ L, p.1 < s.rows ∧ p.2 < s.cols) →
      L.foldlM (fun s2 p => s2.add p.1 p.2) s
        = Except.ok { s with sparsity_pattern := { s.sparsity_pattern with
            entries := s.sparsity_pattern.entries
              ∪ (L.map fun p => (p.1 / s.chunk_size, p.2 / s.chunk_size)).toFinset } } := by
  induction L with
  | nil =>
    intro s h
    simp only [List.foldlM_nil, List.map_nil, List.toFinset_nil, Finset.union_empty]
    rfl
  | cons p L ih =>
    intro s h
    obtain ⟨hp1, hp2⟩ := h p (List.mem_cons_self p L)
    have hstep := ih { s with sparsity_pattern := { s.sparsity_pattern with
        entries := insert (p.1 / s.chunk_size, p.2 / s.chunk_size) s.sparsity_pattern.entries } }
      (fun q hq => h q (List.mem_cons_of_mem p hq))
    rw [List.foldlM_cons, add_ok s p.1 p.2 hp1 hp2]
    rw [show ∀ a (f : ChunkSparsityPattern → Except ChunkError ChunkSparsityPattern),
      (Except.ok a >>= f) = f a from fun a f => rfl]
    rw [hstep]
    simp only [List.map_cons, List.toFinset_cons, Finset.insert_union, Finset.union_insert]

theorem except_bind_ok {α β : Type} (a : α) (f : α → Except ChunkError β) :
    (Except.ok a >>= f) = f a := rfl

theorem except_bind_error {α β : Type} (e : ChunkError) (f : α → Except ChunkError β) :
    ((Except.error e : Except ChunkError α) >>= f) = Except.error e := rfl

theorem map_getD_range (l : List Nat) :
    (List.range l.length).map (fun j => l.getD j 0) = l := by
  apply List.ext_getElem
  · simp
  · intro i h1 h2
    simp [List.getD_eq_getElem?_getD, List.getElem?_eq_getElem h2]

theorem foldlM_map_general {β γ : Type} (g : β → γ)
    (f : ChunkSparsityPattern → γ → Except ChunkError ChunkSparsityPattern) :
    ∀ (l : List β) (s : ChunkSparsityPattern),
      (l.map g).foldlM f s = l.foldlM (fun s2 x => f s2 (g x)) s := by
  intro l
  induction l with
  | nil => intro s; rfl
  | cons x l ih =>
    intro s
    rw [List.map_cons, List.foldlM_cons, List.foldlM_cons]
    cases hr : f s (g x) with
    | error e => rw [except_bind_error, except_bind_error]
    | ok t => rw [except_bind_ok, except_bind_ok, ih t]

theorem foldlM_ite_filter {β : Type} (P : β → Prop) [DecidablePred P]
    (f : ChunkSparsityPattern → β → Except ChunkError ChunkSparsityPattern) :
    ∀ (l : List β) (s : ChunkSparsityPattern),
      l.foldlM (fun s2 x => if P x then f s2 x else pure s2) s
        = (l.filter fun x => decide (P x)).foldlM f s := by
  intro l
  induction l with
  | nil => intro s; rfl
  | cons x l ih =>
    intro s
    by_cases hx : P x
    · rw [List.foldlM_cons, if_pos hx, List.filter_cons_of_pos (by simpa using hx),
        List.foldlM_cons]
      cases hr : f s x with
      | error e => rw [except_bind_error, except_bind_error]
      | ok t => rw [except_bind_ok, except_bind_ok, ih t]
    · rw [List.foldlM_cons, if_neg hx, List.filter_cons_of_neg (by simpa using hx)]
      rw [show (pure s : Except ChunkError ChunkSparsityPattern)
        >>= (fun s2 => List.foldlM (fun s3 x => if P x then f s3 x else pure s3) s2 l)
        = List.foldlM (fun s3 x => if P x then f s3 x else pure s3) s l from rfl]
      exact ih s

theorem foldlM_add_cols (row : Nat) (cols : List Nat) (s : ChunkSparsityPattern)
    (hrow : row < s.rows) (hcols : ∀ col ∈ cols, col < s.cols) :
    cols.foldlM (fun s2 col => s2.add row col) s
      = Except.ok { s with sparsity_pattern := { s.sparsity_pattern with
          entries := s.sparsity_pattern.entries
            ∪ (cols.map fun col => (row / s.chunk_size, col / s.chunk_size)).toFinset } } := by
  have hmap := foldlM_map_general (fun col => ((row : Nat), col))
    (fun s2 p => s2.add p.1 p.2) cols s
  rw [show (fun (s2 : ChunkSparsityPattern) (x : Nat) =>
      (fun s3 (p : Nat × Nat) => s3.add p.1 p.2) s2 ((fun col => ((row : Nat), col)) x))
    = fun s2 x => s2.add row x from rfl] at hmap
  rw [← hmap, foldlM_add_pairs _ s (by
    intro p hp
    obtain ⟨col, hcol, rfl⟩ := List.mem_map.mp hp
    exact ⟨hrow, hcols col hcol⟩)]
  rw [List.map_map]
  rfl

theorem foldlM_add_rows (rows : List Nat) (colsOf : Nat → List Nat) :
    ∀ s : ChunkSparsityPattern, (∀ row ∈ rows, row < s.rows) →
      (∀ row ∈ rows, ∀ col ∈ colsOf row, col < s.cols) →
      rows.foldlM (fun s2 row => (colsOf row).foldlM (fun s3 col => s3.add row col) s2) s
        = Except.ok { s with sparsity_pattern := { s.sparsity_pattern with
            entries := s.sparsity_pattern.entries
              ∪ ((rows.flatMap fun row => (colsOf row).map fun col => ((row : Nat), col)).map
                  fun p => (p.1 / s.chunk_size, p.2 / s.chunk_size)).toFinset } } := by
  induction rows with
  | nil =>
    intro s h1 h2
    simp only [List.foldlM_nil, List.flatMap_nil, List.map_nil, List.toFinset_nil,
      Finset.union_empty]
    rfl
  | cons row rows ih =>
    intro s h1 h2
    rw [List.foldlM_cons,
      foldlM_add_cols row (colsOf row) s (h1 row (List.mem_cons_self row rows))
        (h2 row (List.mem_cons_self row rows)), except_bind_ok]
    rw [ih { s with sparsity_pattern := { s.sparsity_pattern with
        entries := s.sparsity_pattern.entries
          ∪ ((colsOf row).map fun col => (row / s.chunk_size, col / s.chunk_size)).toFinset } }
      (fun r hr => h1 r (List.mem_cons_of_mem row hr))
      (fun r hr => h2 r (List.mem_cons_of_mem row hr))]
    simp only [List.flatMap_cons, List.map_append, List.toFinset_append, List.map_map]
    rw [Finset.union_assoc]
    rfl

theorem reinit_ok (m n : Nat) (rl : List Nat) (c : Nat) (od : Bool)
    (hlen : rl.length = m) (hc : c ≠ 0) :
    ChunkSparsityPattern.reinit m n rl c od
      = Except.ok ⟨m, n, c, ⟨add32 m c / c, add32 n c / c, ∅⟩⟩ := by
  simp [ChunkSparsityPattern.reinit, hlen, hc, SparsityPattern.reinit]

theorem copy_from_csp_eq (csp : CompressedSparsityPattern) (c : Nat) (od : Bool)
    (hc : c ≠ 0)
    (hv : ∀ row, row < csp.csp_rows → ∀ col ∈ csp.row_entries row, col < csp.csp_cols) :
    ChunkSparsityPattern.copy_from_csp csp c od
      = Except.ok ⟨csp.csp_rows, csp.csp_cols, c,
          ⟨add32 csp.csp_rows c / c, add32 csp.csp_cols c / c,
            (((List.range csp.csp_rows).flatMap fun row =>
                (csp.row_entries row).map fun col => ((row : Nat), col)).map
              fun p => (p.1 / c, p.2 / c)).toFinset⟩⟩ := by
  have hinner : (fun (s2 : ChunkSparsityPattern) row =>
      (List.range (csp.row_length row)).foldlM
        (fun s3 j => s3.add row (csp.column_number row j)) s2)
      = fun s2 row => (csp.row_entries row).foldlM (fun s3 col => s3.add row col) s2 := by
    funext s2 row
    show (List.range (csp.row_entries row).length).foldlM
        (fun s3 j => s3.add row ((csp.row_entries row).getD j 0)) s2
      = (csp.row_entries row).foldlM (fun s3 col => s3.add row col) s2
    rw [← foldlM_map_general (fun j => (csp.row_entries row).getD j 0)
      (fun s3 col => s3.add row col) (List.range (csp.row_entries row).length) s2]
    rw [map_getD_range]
  unfold ChunkSparsityPattern.copy_from_csp
  rw [reinit_ok _ _ _ c od (by simp) hc, except_bind_ok, hinner]
  rw [foldlM_add_rows (List.range csp.csp_rows) csp.row_entries
    ⟨csp.csp_rows, csp.csp_cols, c, ⟨add32 csp.csp_rows c / c, add32 csp.csp_cols c / c, ∅⟩⟩
    (fun row hrow => List.mem_range.mp hrow)
    (fun row hrow col hcol => hv row (List.mem_range.mp hrow) col hcol), except_bind_ok]
  simp only [ChunkSparsityPattern.compress, SparsityPattern.compress, Finset.empty_union]
  rfl

theorem copy_from_set_eq (csp : CompressedSetSparsityPattern) (c : Nat) (od : Bool)
    (hc : c ≠ 0)
    (hv : ∀ row, row < csp.cssp_rows → ∀ col ∈ csp.row_list row, col < csp.cssp_cols) :
    ChunkSparsityPattern.copy_from_set csp c od
      = Except.ok ⟨csp.cssp_rows, csp.cssp_cols, c,
          ⟨add32 csp.cssp_rows c / c, add32 csp.cssp_cols c / c,
            (((List.range csp.cssp_rows).flatMap fun row =>
                (csp.row_list row).map fun col => ((row : Nat), col)).map
              fun p => (p.1 / c, p.2 / c)).toFinset⟩⟩ := by
  unfold ChunkSparsityPattern.copy_from_set
  rw [reinit_ok _ _ _ c od (by simp) hc, except_bind_ok]
  rw [foldlM_add_rows (List.range csp.cssp_rows) csp.row_list
    ⟨csp.cssp_rows, csp.cssp_cols, c, ⟨add32 csp.cssp_rows c / c, add32 csp.cssp_cols c / c, ∅⟩⟩
    (fun row hrow => List.mem_range.mp hrow)
    (fun row hrow col hcol => hv row (List.mem_range.mp hrow) col hcol), except_bind_ok]
  simp only [ChunkSparsityPattern.compress, SparsityPattern.compress, Finset.empty_union]
  rfl

theorem foldlM_congr_mem {β : Type}
    (f g : ChunkSparsityPattern → β → Except ChunkError ChunkSparsityPattern) :
    ∀ (l : List β), (∀ x ∈ l, ∀ s, f s x = g s x) →
      ∀ s : ChunkSparsityPattern, l.foldlM f s = l.foldlM g s := by
  intro l
  induction l with
  | nil => intro h s; rfl
  | cons x l ih =>
    intro h s
    rw [List.foldlM_cons, List.foldlM_cons, h x (List.mem_cons_self x l) s]
    cases hr : g s x with
    | error e => rw [except_bind_error, except_bind_error]
    | ok t =>
      rw [except_bind_ok, except_bind_ok,
        ih (fun y hy => h y (List.mem_cons_of_mem x hy)) t]

theorem count_cols_ok {α : Type} [Zero α] [DecidableEq α] (matrix : FullMatrix α)
    (row : Nat) (hrow : row < matrix.dim_image) :
    ∀ (cols : List Nat), (∀ col ∈ cols, col < matrix.dim_range) →
      ∀ epr : List Nat,
        cols.foldlM (fun epr2 col =>
            matrix.checked_el row col >>= fun v =>
              pure (if v ≠ 0 then epr2.set row (epr2.getD row 0 + 1) else epr2)) epr
          = Except.ok (cols.foldl (fun epr2 col =>
              if matrix.el row col ≠ 0 then epr2.set row (epr2.getD row 0 + 1) else epr2)
              epr) := by
  intro cols
  induction cols with
  | nil => intro h epr; rfl
  | cons col cols ih =>
    intro h epr
    have hcol : col < matrix.dim_range := h col (List.mem_cons_self col cols)
    have hstep : (matrix.checked_el row col >>= fun v =>
        (pure (if v ≠ 0 then epr.set row (epr.getD row 0 + 1) else epr)
          : Except ChunkError (List Nat)))
        = Except.ok (if matrix.el row col ≠ 0
            then epr.set row (epr.getD row 0 + 1) else epr) := by
      unfold FullMatrix.checked_el
      rw [if_pos hrow, if_pos hcol, except_bind_ok]
      rfl
    rw [List.foldlM_cons, hstep, except_bind_ok,
      ih (fun c2 hc2 => h c2 (List.mem_cons_of_mem col hc2)), List.foldl_cons]

theorem count_rows_ok {α : Type} [Zero α] [DecidableEq α] (matrix : FullMatrix α) :
    ∀ (rows : List Nat), (∀ row ∈ rows, row < matrix.dim_image) →
      ∀ epr : List Nat,
        rows.foldlM (fun epr row => (List.range matrix.n).foldlM
            (fun epr2 col => matrix.checked_el row col >>= fun v =>
              pure (if v ≠ 0 then epr2.set row (epr2.getD row 0 + 1) else epr2)) epr) epr
          = Except.ok (rows.foldl (fun epr row => (List.range matrix.n).foldl
              (fun epr2 col => if matrix.el row col ≠ 0
                then epr2.set row (epr2.getD row 0 + 1) else epr2) epr) epr) := by
  intro rows
  induction rows with
  | nil => intro h epr; rfl
  | cons row rows ih =>
    intro h epr
    rw [List.foldlM_cons,
      count_cols_ok matrix row (h row (List.mem_cons_self row rows))
        (List.range matrix.n) (fun col hcol => List.mem_range.mp hcol) epr,
      except_bind_ok,
      ih (fun r hr => h r (List.mem_cons_of_mem row hr)), List.foldl_cons]

theorem countfold_cols_length {α : Type} [Zero α] [DecidableEq α]
    (matrix : FullMatrix α) (row : Nat) :
    ∀ (cols : List Nat) (epr : List Nat),
      (cols.foldl (fun epr2 col => if matrix.el row col ≠ 0
          then epr2.set row (epr2.getD row 0 + 1) else epr2) epr).length
        = epr.length := by
  intro cols
  induction cols with
  | nil => intro epr; rfl
  | cons col cols ih =>
    intro epr
    rw [List.foldl_cons, ih]
    by_cases h : matrix.el row col ≠ 0
    · rw [if_pos h, List.length_set]
    · rw [if_neg h]

theorem countfold_rows_length {α : Type} [Zero α] [DecidableEq α]
    (matrix : FullMatrix α) :
    ∀ (rows : List Nat) (epr : List Nat),
      (rows.foldl (fun epr row => (List.range matrix.n).foldl
          (fun epr2 col => if matrix.el row col ≠ 0
            then epr2.set row (epr2.getD row 0 + 1) else epr2) epr) epr).length
        = epr.length := by
  intro rows
  induction rows with
  | nil => intro epr; rfl
  | cons row rows ih =>
    intro epr
    rw [List.foldl_cons, ih, countfold_cols_length]

theorem fill_cols_checked {α : Type} [Zero α] [DecidableEq α] (matrix : FullMatrix α)
    (row : Nat) (hrow : row < matrix.dim_image) (s2 : ChunkSparsityPattern) :
    (List.range matrix.n).foldlM (fun s3 col =>
        matrix.checked_el row col >>= fun v =>
          if v ≠ 0 then s3.add row col else pure s3) s2
      = (List.range matrix.n).foldlM
          (fun s3 col => if matrix.el row col ≠ 0 then s3.add row col else pure s3) s2 := by
  apply foldlM_congr_mem
  intro col hcol s3
  have hc2 : col < matrix.dim_range := List.mem_range.mp hcol
  show (matrix.checked_el row col >>= fun v =>
    if v ≠ 0 then s3.add row col else pure s3) = _
  unfold FullMatrix.checked_el
  rw [if_pos hrow, if_pos hc2, except_bind_ok]

theorem copy_from_full_eq {α : Type} [Zero α] [DecidableEq α] (matrix : FullMatrix α)
    (c : Nat) (od : Bool) (hc : c ≠ 0) :
    ChunkSparsityPattern.copy_from_full matrix c od
      = Except.ok ⟨matrix.m, matrix.n, c,
          ⟨add32 matrix.m c / c, add32 matrix.n c / c,
            (((List.range matrix.m).flatMap fun row =>
                ((List.range matrix.n).filter
                  fun col => decide (matrix.el row col ≠ 0)).map
                  fun col => ((row : Nat), col)).map
              fun p => (p.1 / c, p.2 / c)).toFinset⟩⟩ := by
  have hcount := count_rows_ok matrix (List.range matrix.m)
    (fun row hrow => List.mem_range.mp hrow) (List.replicate matrix.m 0)
  have hlen : ((List.range matrix.m).foldl (fun epr row => (List.range matrix.n).foldl
      (fun epr2 col => if matrix.el row col ≠ 0
        then epr2.set row (epr2.getD row 0 + 1) else epr2) epr)
      (List.replicate matrix.m 0)).length = matrix.m := by
    rw [countfold_rows_length, List.length_replicate]
  have hfill := foldlM_congr_mem
    (fun (s2 : ChunkSparsityPattern) row => (List.range matrix.n).foldlM (fun s3 col =>
        matrix.checked_el row col >>= fun v =>
          if v ≠ 0 then s3.add row col else pure s3) s2)
    (fun (s2 : ChunkSparsityPattern) row => (List.range matrix.n).foldlM
        (fun s3 col => if matrix.el row col ≠ 0 then s3.add row col else pure s3) s2)
    (List.range matrix.m)
    (fun row hrow s2 => fill_cols_checked matrix row (List.mem_range.mp hrow) s2)
    ⟨matrix.m, matrix.n, c, ⟨add32 matrix.m c / c, add32 matrix.n c / c, ∅⟩⟩
  have hinner : (fun (s2 : ChunkSparsityPattern) row =>
      (List.range matrix.n).foldlM
        (fun s3 col => if matrix.el row col ≠ 0 then s3.add row col else pure s3) s2)
      = fun s2 row => ((List.range matrix.n).filter
          fun col => decide (matrix.el row col ≠ 0)).foldlM
          (fun s3 col => s3.add row col) s2 := by
    funext s2 row
    exact foldlM_ite_filter (fun col => matrix.el row col ≠ 0)
      (fun s3 col => s3.add row col) (List.range matrix.n) s2
  unfold ChunkSparsityPattern.copy_from_full
  rw [hcount, except_bind_ok]
  rw [reinit_ok _ _ _ c od hlen hc, except_bind_ok]
  rw [hfill, hinner]
  rw [foldlM_add_rows (List.range matrix.m)
    (fun row => (List.range matrix.n).filter fun col => decide (matrix.el row col ≠ 0))
    ⟨matrix.m, matrix.n, c,
      ⟨add32 matrix.m c / c, add32 matrix.n c / c, ∅⟩⟩
    (fun row hrow => List.mem_range.mp hrow)
    (fun row hrow col hcol => List.mem_range.mp (List.mem_of_mem_filter hcol)),
    except_bind_ok]
  simp only [ChunkSparsityPattern.compress, SparsityPattern.compress, Finset.empty_union]
  rfl

theorem build_manual_eq (m n : Nat) (rl : List Nat) (inserts : List (Nat × Nat))
    (c : Nat) (od : Bool) (hlen : rl.length = m) (hc : c ≠ 0)
    (hv : ∀ p ∈ inserts, p.1 < m ∧ p.2 < n) :
    ChunkSparsityPattern.build_manual m n rl inserts c od
      = Except.ok ⟨m, n, c,
          ⟨add32 m c / c, add32 n c / c,
            (inserts.map fun p => (p.1 / c, p.2 / c)).toFinset⟩⟩ := by
  unfold ChunkSparsityPattern.build_manual
  rw [reinit_ok _ _ _ c od hlen hc, except_bind_ok]
  rw [foldlM_add_pairs inserts ⟨m, n, c, ⟨add32 m c / c, add32 n c / c, ∅⟩⟩ hv,
    except_bind_ok]
  simp only [ChunkSparsityPattern.compress, SparsityPattern.compress, Finset.empty_union]
  rfl

/-- The byte sequence the spec asserts for `block_write`: literal `[`,
decimal rows, one space, decimal cols, literal `]`, literal `[`, the coarse
payload, literal `]` — with no space between the column count and `]`. -/
def block_write_claimed_format (s : ChunkSparsityPattern) : List Char :=
  '[' :: (natDecimal s.rows ++ ' ' :: (natDecimal s.cols ++ ']' :: '[' ::
    (s.sparsity_pattern.block_write ++ [']'])))

/-- A small concrete pattern exercising the serialization format. -/
def formatProbe : ChunkSparsityPattern := ⟨1, 1, 1, ⟨2, 2, ∅⟩⟩

theorem formatProbe_block_write :
    ChunkSparsityPattern.block_write formatProbe
      = ['[', '1', ' ', '1', ' ', ']', '[', '2', ';', '2', ';', '0', ';', ']'] := by
  unfold ChunkSparsityPattern.block_write streamPut formatProbe SparsityPattern.block_write
    SparsityPattern.entryCodes
  rw [Finset.image_empty, Finset.sort_empty]
  rfl

theorem formatProbe_claimed_format :
    block_write_claimed_format formatProbe
      = ['[', '1', ' ', '1', ']', '[', '2', ';', '2', ';', '0', ';', ']'] := by
  unfold block_write_claimed_format formatProbe SparsityPattern.block_write
    SparsityPattern.entryCodes
  rw [Finset.image_empty, Finset.sort_empty]
  rfl

/-- C2, counterexample: on a concrete 1×1 pattern, the bytes emitted by
`block_write` are not the sequence the claim states — the source also writes
a space after the column count (`out << cols << ' ' << "]["`), so the
claimed format (with no space there) disagrees with the emitted bytes. -/
theorem block_write_format_cex :
    decide (ChunkSparsityPattern.block_write formatProbe
      = block_write_claimed_format formatProbe) = false := by
  rw [formatProbe_block_write, formatProbe_claimed_format]
  decide

/-- C2, amended: for every pattern, `block_write` emits exactly literal `[`,
the decimal digits of rows, one space, the decimal digits of cols, one
space, literal `]`, literal `[`, the coarse structure's own block-write
payload, literal `]`. -/
theorem block_write_format (s : ChunkSparsityPattern) :
    s.block_write
      = '[' :: (natDecimal s.rows ++ ' ' :: (natDecimal s.cols ++ ' ' :: ']' :: '[' ::
          (s.sparsity_pattern.block_write ++ [']']))) := by
  unfold ChunkSparsityPattern.block_write streamPut
  simp [List.append_assoc]

/-- C3: at `m = n = 4`, `chunk_size = 4`, `reinit` sizes the coarse structure
`2 × 2`, although rounding `4 / 4` up — which the source's own comment says
the formula computes — gives `(4 + 4 - 1) / 4 = 1` chunk row.  The code's
`(m + chunk_size) / chunk_size` yields one extra chunk row whenever
`chunk_size` divides `m`. -/
theorem reinit_chunk_count_off_by_one :
    ChunkSparsityPattern.reinit 4 4 [0, 0, 0, 0] 4 true
      = Except.ok ⟨4, 4, 4, ⟨2, 2, ∅⟩⟩ ∧ (4 + 4 - 1) / 4 = 1 := by
  constructor
  · rfl
  · rfl

/-- C9: copy construction and copy assignment raise the
`ExcInvalidConstructorCall` precondition violation exactly when the source
pattern has `rows ≠ 0` or `cols ≠ 0`; copy assignment succeeds exactly on an
unsized (0×0) source, and copy construction never returns normally (on a 0×0
source it goes on to divide by zero, see the division-by-zero theorem). -/
theorem copy_only_when_unsized (t s : ChunkSparsityPattern) :
    (s.copy_ctor = Except.error ChunkError.invalidConstructorCall
      ↔ (0 < s.rows ∨ 0 < s.cols))
    ∧ (t.copy_assign s = Except.error ChunkError.invalidConstructorCall
      ↔ (0 < s.rows ∨ 0 < s.cols))
    ∧ (exceptIsOk (t.copy_assign s) = true ↔ (s.rows = 0 ∧ s.cols = 0))
    ∧ exceptIsOk s.copy_ctor = false := by
  have hzero : ChunkSparsityPattern.reinit_uniform 0 0 0 0 false
      = Except.error ChunkError.divisionByZero := rfl
  by_cases h1 : s.rows = 0 <;> by_cases h2 : s.cols = 0 <;>
    simp [ChunkSparsityPattern.copy_ctor, ChunkSparsityPattern.copy_assign, h1, h2,
      hzero, exceptIsOk, Nat.pos_of_ne_zero, Nat.pos_iff_ne_zero]

/-- C10: the default constructor (and, on an unsized source, the copy
constructor) reaches the unsigned division `(m + chunk_size) / chunk_size`
with `chunk_size = 0`; `reinit` returns normally only when
`chunk_size ≥ 1`. -/
theorem ctor_chunk_size_zero_division :
    ChunkSparsityPattern.default_ctor = Except.error ChunkError.divisionByZero
    ∧ (∀ s : ChunkSparsityPattern, s.rows = 0 → s.cols = 0 →
        s.copy_ctor = Except.error ChunkError.divisionByZero)
    ∧ (∀ m n rl c od s, ChunkSparsityPattern.reinit m n rl c od = Except.ok s → 1 ≤ c) := by
  refine ⟨rfl, ?_, ?_⟩
  · intro s h1 h2
    simp [ChunkSparsityPattern.copy_ctor, h1, h2]
    rfl
  · intro m n rl c od s h
    by_contra hc
    have hc0 : c = 0 := by omega
    subst hc0
    unfold ChunkSparsityPattern.reinit at h
    by_cases hlen : rl.length = m <;> simp [hlen] at h

/-- C5: `add(i, j)` fails exactly when `i ≥ rows` or `j ≥ cols`; in range it
inserts chunk `(i / chunk_size, j / chunk_size)` into the coarse structure;
and a second identical `add` has the same observable effect as one. -/
theorem add_spec (s : ChunkSparsityPattern) (i j : Nat) :
    (exceptIsOk (s.add i j) = false ↔ (s.rows ≤ i ∨ s.cols ≤ j))
    ∧ (i < s.rows → j < s.cols →
        s.add i j = Except.ok { s with sparsity_pattern := { s.sparsity_pattern with
          entries := insert (i / s.chunk_size, j / s.chunk_size)
            s.sparsity_pattern.entries } })
    ∧ ((s.add i j) >>= (fun t => t.add i j)) = s.add i j := by
  refine ⟨?_, fun h1 h2 => add_ok s i j h1 h2, ?_⟩
  · unfold ChunkSparsityPattern.add
    by_cases h1 : i < s.rows <;> by_cases h2 : j < s.cols <;>
      simp [h1, h2, exceptIsOk] <;> omega
  · by_cases h1 : i < s.rows
    · by_cases h2 : j < s.cols
      · have hupd := add_ok { s with sparsity_pattern := { s.sparsity_pattern with
            entries := insert (i / s.chunk_size, j / s.chunk_size)
              s.sparsity_pattern.entries } } i j h1 h2
        rw [add_ok s i j h1 h2, except_bind_ok, hupd]
        simp [Finset.insert_idem]
      · have he : s.add i j = Except.error ChunkError.invalidIndex := by
          simp [ChunkSparsityPattern.add, h1, h2]
        rw [he, except_bind_error]
    · have he : s.add i j = Except.error ChunkError.invalidIndex := by
        simp [ChunkSparsityPattern.add, h1]
      rw [he, except_bind_error]

/-- C6: after an in-range `add(i1, j1)` producing `s2`, any `(i2, j2)` inside
the same chunk satisfies `exists(i2, j2) = true`; and in general an in-range
`exists(i, j)` is true exactly when the coarse structure records chunk
`(i / chunk_size, j / chunk_size)`. -/
theorem add_implies_exists_chunk (s s2 : ChunkSparsityPattern) (i1 j1 i2 j2 : Nat)
    (h1 : i1 < s.rows) (h2 : j1 < s.cols) (h3 : i2 < s.rows) (h4 : j2 < s.cols)
    (hi : i1 / s.chunk_size = i2 / s.chunk_size)
    (hj : j1 / s.chunk_size = j2 / s.chunk_size)
    (hadd : s.add i1 j1 = Except.ok s2) :
    s2.exists_query i2 j2 = Except.ok true
    ∧ ∀ i j, i < s.rows → j < s.cols →
        (s.exists_query i j = Except.ok true
          ↔ (i / s.chunk_size, j / s.chunk_size) ∈ s.sparsity_pattern.entries) := by
  constructor
  · rw [add_ok s i1 j1 h1 h2] at hadd
    injection hadd with hs2
    subst hs2
    simp only [ChunkSparsityPattern.exists_query, SparsityPattern.exists_entry]
    rw [if_pos h3, if_pos h4, ← hi, ← hj]
    simp
  · intro i j hi2 hj2
    simp [ChunkSparsityPattern.exists_query, SparsityPattern.exists_entry, hi2, hj2]

/-- A concrete pattern used to witness the chunk-query theorems. -/
def queryProbe : ChunkSparsityPattern := ⟨10, 10, 4, ⟨3, 3, ∅⟩⟩

/-- Witness for the `add`/`exists` chunk-coarsening theorem at a concrete
input: inserting (0, 0) into a 10×10 pattern with chunk size 4 makes
(1, 1) — same chunk — exist. -/
theorem add_implies_exists_chunk_witness :
    (⟨10, 10, 4, ⟨3, 3, insert (0, 0) ∅⟩⟩ : ChunkSparsityPattern).exists_query 1 1
      = Except.ok true
    ∧ ∀ i j, i < queryProbe.rows → j < queryProbe.cols →
        (queryProbe.exists_query i j = Except.ok true
          ↔ (i / queryProbe.chunk_size, j / queryProbe.chunk_size)
              ∈ queryProbe.sparsity_pattern.entries) :=
  add_implies_exists_chunk queryProbe ⟨10, 10, 4, ⟨3, 3, insert (0, 0) ∅⟩⟩ 0 0 1 1
    (by decide) (by decide) (by decide) (by decide) rfl rfl rfl

/-- C8: for chunk sizes at least one (and no 32-bit overflow), `bandwidth()`
is the minimum of `coarse.bandwidth() * chunk_size + (chunk_size - 1)` and
`max(rows, cols)`. -/
theorem bandwidth_formula (s : ChunkSparsityPattern)
    (hc : 0 < s.chunk_size)
    (hov : s.sparsity_pattern.bandwidth * s.chunk_size + (s.chunk_size - 1) < U32) :
    s.bandwidth
      = min (s.sparsity_pattern.bandwidth * s.chunk_size + (s.chunk_size - 1))
          (max s.rows s.cols) := by
  unfold ChunkSparsityPattern.bandwidth ChunkSparsityPattern.n_rows ChunkSparsityPattern.n_cols
    add32 mul32 sub32
  have hU : (0 : Nat) < U32 := by unfold U32; omega
  have h1 : s.sparsity_pattern.bandwidth * s.chunk_size < U32 := by omega
  rw [Nat.mod_eq_of_lt h1]
  have h2 : s.chunk_size + U32 - 1 = U32 + (s.chunk_size - 1) := by omega
  rw [h2, Nat.add_mod_left]
  have h3 : s.chunk_size - 1 < U32 := by omega
  rw [Nat.mod_eq_of_lt h3, Nat.mod_eq_of_lt hov]

/-- A concrete compressed pattern used to witness the bandwidth theorem. -/
def bandProbe : ChunkSparsityPattern := ⟨10, 10, 4, ⟨3, 3, {(0, 0), (0, 1), (2, 2)}⟩⟩

/-- Witness for the bandwidth theorem at a concrete input. -/
theorem bandwidth_formula_witness :
    bandProbe.bandwidth
      = min (bandProbe.sparsity_pattern.bandwidth * bandProbe.chunk_size
          + (bandProbe.chunk_size - 1)) (max bandProbe.rows bandProbe.cols) :=
  bandwidth_formula bandProbe (by decide) (by decide)

/-- C4: the capacity `reinit` passes to the coarse structure for chunk row
`k` is the maximum — not the sum — of `row_lengths[i]` over the logical rows
`i` with `i / chunk_size = k`. -/
theorem reinit_capacity_is_row_max (m n c k : Nat) (row_lengths : List Nat)
    (hlen : row_lengths.length = m) (hc : 0 < c) (hov : m + c < U32)
    (hk : k < add32 m c / c) :
    (chunk_row_lengths m c (add32 m c / c) row_lengths).getD k 0
      = ((Finset.range m).filter fun i => i / c = k).sup
          fun i => row_lengths.getD i 0 := by
  have hadd : add32 m c = m + c := by
    unfold add32
    exact Nat.mod_eq_of_lt hov
  have hmc : (m + c) / c = m / c + 1 := Nat.add_div_right m hc
  unfold chunk_row_lengths
  rw [chunkRowLengthsAux_getD c row_lengths m (List.replicate (add32 m c / c) 0) k
    (by rw [List.length_replicate]; exact hk)
    (by
      intro i hi
      rw [List.length_replicate, hadd, hmc]
      exact Nat.lt_succ_of_le (Nat.div_le_div_right (Nat.le_of_lt hi)))]
  rw [getD_replicate_zero, Nat.zero_max]

/-- Witness for the chunk-row-capacity theorem at a concrete input:
`m = 3`, `chunk_size = 2`, `row_lengths = [5, 7, 2]`, chunk row `k = 1`. -/
theorem reinit_capacity_is_row_max_witness :
    (chunk_row_lengths 3 2 (add32 3 2 / 2) [5, 7, 2]).getD 1 0
      = ((Finset.range 3).filter fun i => i / 2 = 1).sup
          fun i => [5, 7, 2].getD i 0 :=
  reinit_capacity_is_row_max 3 0 2 1 [5, 7, 2] rfl (by decide) (by decide) (by decide)

theorem expectChar_lbracket (cs : List Char) : expectChar '[' ('[' :: cs) = some cs := by
  rw [expectChar_cons '[' cs (by decide)]

theorem expectChar_rbracket (cs : List Char) : expectChar ']' (']' :: cs) = some cs := by
  rw [expectChar_cons ']' cs (by decide)]

theorem expectChar_sp_rbracket (cs : List Char) :
    expectChar ']' (' ' :: ']' :: cs) = some cs := by
  unfold expectChar
  rw [parseOneChar_ws_cons ' ' _ (by decide), parseOneChar_cons ']' cs (by decide)]
  simp

theorem parseNat_natDecimal_sp (n : Nat) (X : List Char) :
    parseNat (natDecimal n ++ ' ' :: X) = some (n, ' ' :: X) :=
  parseNat_natDecimal n (' ' :: X) rfl

theorem parseNat_sp (l : List Char) : parseNat (' ' :: l) = parseNat l :=
  parseNat_ws_cons ' ' l rfl

theorem block_read_block_write (P Q : ChunkSparsityPattern) (rest : List Char) :
    Q.block_read (P.block_write ++ rest)
      = some (⟨P.rows, P.cols, Q.chunk_size, P.sparsity_pattern⟩, rest) := by
  unfold ChunkSparsityPattern.block_write streamPut ChunkSparsityPattern.block_read
  simp only [List.nil_append, List.append_assoc, List.cons_append, List.singleton_append]
  simp only [expectChar_lbracket, parseNat_natDecimal_sp, parseNat_sp,
    expectChar_sp_rbracket, sparsity_block_roundtrip, expectChar_rbracket]

/-- C1: reading back the bytes written by `block_write` succeeds, consumes
exactly those bytes, and reproduces rows, cols and the coarse structure;
`chunk_size` is neither written nor read, so the result keeps the reading
pattern's chunk size — the chunk-size context is preserved whenever the
reader has the writer's chunk size, and then every in-range `exists(i, j)`
agrees. -/
theorem block_write_read_roundtrip (P Q : ChunkSparsityPattern) (rest : List Char)
    (hck : Q.chunk_size = P.chunk_size) :
    ∃ R, Q.block_read (P.block_write ++ rest) = some (R, rest)
      ∧ R.rows = P.rows ∧ R.cols = P.cols ∧ R.chunk_size = P.chunk_size
      ∧ ∀ i j, i < P.rows → j < P.cols → R.exists_query i j = P.exists_query i j := by
  refine ⟨⟨P.rows, P.cols, Q.chunk_size, P.sparsity_pattern⟩,
    block_read_block_write P Q rest, rfl, rfl, hck, ?_⟩
  intro i j hi hj
  simp [ChunkSparsityPattern.exists_query, hck, hi, hj]

/-- A compressed pattern whose serialization is exercised by the round-trip
witness. -/
def rtProbe : ChunkSparsityPattern := ⟨10, 10, 4, ⟨3, 3, {(0, 0), (0, 1), (2, 2)}⟩⟩

/-- A target pattern (same chunk size, otherwise unrelated) for the
round-trip witness to read into. -/
def rtTarget : ChunkSparsityPattern := ⟨0, 0, 4, ⟨1, 1, ∅⟩⟩

/-- Witness for the round-trip theorem at a concrete pattern. -/
theorem block_write_read_roundtrip_witness :
    ∃ R, rtTarget.block_read (rtProbe.block_write ++ []) = some (R, [])
      ∧ R.rows = rtProbe.rows ∧ R.cols = rtProbe.cols
      ∧ R.chunk_size = rtProbe.chunk_size
      ∧ ∀ i j, i < rtProbe.rows → j < rtProbe.cols →
          R.exists_query i j = rtProbe.exists_query i j :=
  block_write_read_roundtrip rtProbe rtTarget [] rfl

theorem toFinset_chunk_ext (c : Nat) (L1 L2 : List (Nat × Nat))
    (h : ∀ p, p ∈ L1 ↔ p ∈ L2) :
    (L1.map fun p => (p.1 / c, p.2 / c)).toFinset
      = (L2.map fun p => (p.1 / c, p.2 / c)).toFinset := by
  ext q
  simp only [List.mem_toFinset, List.mem_map]
  constructor
  · rintro ⟨p, hp, rfl⟩
    exact ⟨p, (h p).mp hp, rfl⟩
  · rintro ⟨p, hp, rfl⟩
    exact ⟨p, (h p).mpr hp, rfl⟩

theorem mem_rowflat (m : Nat) (colsOf : Nat → List Nat) (p : Nat × Nat) :
    p ∈ (List.range m).flatMap (fun row => (colsOf row).map fun col => ((row : Nat), col))
      ↔ p.1 < m ∧ p.2 ∈ colsOf p.1 := by
  simp only [List.mem_flatMap, List.mem_range, List.mem_map]
  constructor
  · rintro ⟨row, hrow, col, hcol, rfl⟩
    exact ⟨hrow, hcol⟩
  · rintro ⟨h1, h2⟩
    exact ⟨p.1, h1, p.2, h2, rfl⟩

/-- C7: on logically-equivalent inputs (same dimensions, same set of
structurally nonzero positions) and the same chunk size, the four
construction paths — ordered compressed pattern, set-like compressed
pattern, dense matrix with nonzero test, and explicit row-length array with
insertion loop — produce identical patterns (hence identical coarse
structures), and in particular identical `exists(i, j)` everywhere. -/
theorem copy_from_equivalence {α : Type} [Zero α] [DecidableEq α]
    (csp : CompressedSparsityPattern) (cset : CompressedSetSparsityPattern)
    (matrix : FullMatrix α) (rl : List Nat) (inserts : List (Nat × Nat))
    (c : Nat) (od : Bool)
    (hc : 0 < c)
    (hrS : cset.cssp_rows = csp.csp_rows) (hcS : cset.cssp_cols = csp.csp_cols)
    (hrM : matrix.m = csp.csp_rows) (hcM : matrix.n = csp.csp_cols)
    (hlen : rl.length = csp.csp_rows)
    (hvC : ∀ row, row < csp.csp_rows → ∀ col ∈ csp.row_entries row, col < csp.csp_cols)
    (hvS : ∀ row, row < csp.csp_rows → ∀ col ∈ cset.row_list row, col < csp.csp_cols)
    (hvI : ∀ p ∈ inserts, p.1 < csp.csp_rows ∧ p.2 < csp.csp_cols)
    (heqS : ∀ row, row < csp.csp_rows → ∀ col, col < csp.csp_cols →
        (col ∈ csp.row_entries row ↔ col ∈ cset.row_list row))
    (heqM : ∀ row, row < csp.csp_rows → ∀ col, col < csp.csp_cols →
        (col ∈ csp.row_entries row ↔ matrix.el row col ≠ 0))
    (heqI : ∀ row, row < csp.csp_rows → ∀ col, col < csp.csp_cols →
        (col ∈ csp.row_entries row ↔ (row, col) ∈ inserts)) :
    ChunkSparsityPattern.copy_from_csp csp c od
        = ChunkSparsityPattern.copy_from_set cset c od
    ∧ ChunkSparsityPattern.copy_from_csp csp c od
        = ChunkSparsityPattern.copy_from_full matrix c od
    ∧ ChunkSparsityPattern.copy_from_csp csp c od
        = ChunkSparsityPattern.build_manual csp.csp_rows csp.csp_cols rl inserts c od
    ∧ ∀ s1 s2, ChunkSparsityPattern.copy_from_csp csp c od = Except.ok s1 →
        ChunkSparsityPattern.copy_from_full matrix c od = Except.ok s2 →
        ∀ i j, s1.exists_query i j = s2.exists_query i j := by
  have hc2 : c ≠ 0 := Nat.pos_iff_ne_zero.mp hc
  have hvS2 : ∀ row, row < cset.cssp_rows → ∀ col ∈ cset.row_list row,
      col < cset.cssp_cols := by
    rw [hrS, hcS]
    exact hvS
  have hA := copy_from_csp_eq csp c od hc2 hvC
  have hB := copy_from_set_eq cset c od hc2 hvS2
  have hC := copy_from_full_eq matrix c od hc2
  have hD := build_manual_eq csp.csp_rows csp.csp_cols rl inserts c od hlen hc2 hvI
  rw [hrS, hcS] at hB
  rw [hrM, hcM] at hC
  have hmemS : ∀ p : Nat × Nat,
      p ∈ (List.range csp.csp_rows).flatMap
        (fun row => (csp.row_entries row).map fun col => ((row : Nat), col))
      ↔ p ∈ (List.range csp.csp_rows).flatMap
        (fun row => (cset.row_list row).map fun col => ((row : Nat), col)) := by
    intro p
    rw [mem_rowflat, mem_rowflat]
    constructor
    · rintro ⟨h1, h2⟩
      exact ⟨h1, (heqS p.1 h1 p.2 (hvC p.1 h1 p.2 h2)).mp h2⟩
    · rintro ⟨h1, h2⟩
      have hb : p.2 < csp.csp_cols := by
        have := hvS2 p.1
        rw [hrS, hcS] at this
        exact this h1 p.2 h2
      exact ⟨h1, (heqS p.1 h1 p.2 hb).mpr h2⟩
  have hmemM : ∀ p : Nat × Nat,
      p ∈ (List.range csp.csp_rows).flatMap
        (fun row => (csp.row_entries row).map fun col => ((row : Nat), col))
      ↔ p ∈ (List.range csp.csp_rows).flatMap
        (fun row => ((List.range csp.csp_cols).filter
          fun col => decide (matrix.el row col ≠ 0)).map fun col => ((row : Nat), col)) := by
    intro p
    rw [mem_rowflat, mem_rowflat]
    simp only [List.mem_filter, List.mem_range, decide_eq_true_eq]
    constructor
    · rintro ⟨h1, h2⟩
      have hb : p.2 < csp.csp_cols := hvC p.1 h1 p.2 h2
      exact ⟨h1, hb, (heqM p.1 h1 p.2 hb).mp h2⟩
    · rintro ⟨h1, hb, h2⟩
      exact ⟨h1, (heqM p.1 h1 p.2 hb).mpr h2⟩
  have hmemI : ∀ p : Nat × Nat,
      p ∈ (List.range csp.csp_rows).flatMap
        (fun row => (csp.row_entries row).map fun col => ((row : Nat), col))
      ↔ p ∈ inserts := by
    intro p
    rw [mem_rowflat]
    constructor
    · rintro ⟨h1, h2⟩
      exact (heqI p.1 h1 p.2 (hvC p.1 h1 p.2 h2)).mp h2
    · intro hp
      obtain ⟨h1, h2⟩ := hvI p hp
      exact ⟨h1, (heqI p.1 h1 p.2 h2).mpr hp⟩
  have hFS := toFinset_chunk_ext c _ _ hmemS
  have hFM := toFinset_chunk_ext c _ _ hmemM
  have hFI := toFinset_chunk_ext c _ _ hmemI
  refine ⟨?_, ?_, ?_, ?_⟩
  · rw [hA, hB, hFS]
  · rw [hA, hC, hFM]
  · rw [hA, hD, hFI]
  · intro s1 s2 h1 h2
    rw [hA] at h1
    rw [hC] at h2
    injection h1 with h1e
    injection h2 with h2e
    subst h1e
    subst h2e
    intro i j
    rw [hFM]

/-- A concrete ordered compressed input: rows 0, 1, 2 hold columns
`[1]`, `[0, 2]`, `[]`. -/
def eqProbeCsp : CompressedSparsityPattern :=
  ⟨3, 3, fun row => if row = 0 then [1] else if row = 1 then [0, 2] else []⟩

/-- The same nonzero set presented through set-like iteration (row 1 in the
other order). -/
def eqProbeSet : CompressedSetSparsityPattern :=
  ⟨3, 3, fun row => if row = 0 then [1] else if row = 1 then [2, 0] else []⟩

/-- The same nonzero set as a dense 3×3 integer matrix, stored row-major:
the flat indices 1 = (0,1), 3 = (1,0) and 5 = (1,2) hold ones. -/
def eqProbeMat : FullMatrix Int :=
  ⟨fun k => if k = 1 ∨ k = 3 ∨ k = 5 then 1 else 0, 3, 3⟩

/-- The same nonzero set as an explicit row-length array plus insertions. -/
def eqProbeRl : List Nat := [1, 2, 0]

/-- The insertion sequence matching `eqProbeCsp`. -/
def eqProbeIns : List (Nat × Nat) := [(0, 1), (1, 0), (1, 2)]

/-- Witness for the cross-overload equivalence theorem at concrete
logically-equivalent inputs with chunk size 2. -/
theorem copy_from_equivalence_witness :
    ChunkSparsityPattern.copy_from_csp eqProbeCsp 2 true
        = ChunkSparsityPattern.copy_from_set eqProbeSet 2 true
    ∧ ChunkSparsityPattern.copy_from_csp eqProbeCsp 2 true
        = ChunkSparsityPattern.copy_from_full eqProbeMat 2 true
    ∧ ChunkSparsityPattern.copy_from_csp eqProbeCsp 2 true
        = ChunkSparsityPattern.build_manual eqProbeCsp.csp_rows eqProbeCsp.csp_cols
            eqProbeRl eqProbeIns 2 true
    ∧ ∀ s1 s2, ChunkSparsityPattern.copy_from_csp eqProbeCsp 2 true = Except.ok s1 →
        ChunkSparsityPattern.copy_from_full eqProbeMat 2 true = Except.ok s2 →
        ∀ i j, s1.exists_query i j = s2.exists_query i j :=
  copy_from_equivalence eqProbeCsp eqProbeSet eqProbeMat eqProbeRl eqProbeIns 2 true
    (by decide) rfl rfl rfl rfl rfl (by decide) (by decide) (by decide) (by decide)
    (by decide) (by decide)
